import Mathlib

/-
Verification of the d4_paragon placement core, a shallow embedding of
src/board.py and src/paragon.py.

Modelling conventions:
- Python character strings become List Char; a board content matrix is a
  List (List Char).
- A Python method reading self.total_boards or self.board_edge_len becomes a
  function taking that number as an argument (n, respectively E).
- Python exceptions (ValueError, IndexError, KeyError) become Option results:
  none is a raised exception.  Python also lets a negative index wrap around
  to the end of a list; the grid reader below treats a negative index as a
  failure instead, which is justified a posteriori by the theorem that every
  reached occupancy check uses indices inside [0, length).
- The recursion of recur_enumerate_boards shrinks the queue at every level
  (the list comprehension drops the chosen board), so it is embedded with an
  explicit fuel argument that starts at the queue length; the fuel-0,
  queue-nonempty branch is unreachable from the entry point, which is proved
  rather than assumed by the theorems below (they carry the bound
  q.length <= fuel where it matters).
-/

/-- src/board.py: class Board.  The is_base attribute is set from the name in
__init__ and the name is never changed, so it is modelled as the derived
predicate name = "base". -/
structure Board where
  name : String
  board : List (List Char)
deriving DecidableEq

/-- src/board.py: Board.is_base, the flag set in __init__. -/
def Board.isBase (b : Board) : Bool := b.name == "base"

/-- The Python builtin zip(*xss) used by Board.rotate: the j-th output row
collects the j-th element of every input row, and the output stops at the
length of the shortest input row (zip with no arguments yields nothing). -/
def pyZipStar (xss : List (List Char)) : List (List Char) :=
  match xss with
  | [] => []
  | x :: rest =>
    (List.range (rest.foldl (fun acc r => min acc r.length) x.length)).map
      (fun j => xss.map (fun row => row.getD j '-'))

/-- src/board.py line 11: one clockwise quarter turn,
[list(row) for row in zip(*rotated_board[::-1])]. -/
def rotate90 (g : List (List Char)) : List (List Char) :=
  pyZipStar g.reverse

/-- src/board.py: Board.rotate(R) applies the quarter turn R % 4 times and
returns a new Board with the same name. -/
def Board.rotate (b : Board) (R : Nat) : Board :=
  ⟨b.name, rotate90^[R % 4] b.board⟩

/-- src/board.py: Board.copy. -/
def Board.copyB (b : Board) : Board :=
  ⟨b.name, b.board.map (fun r => r)⟩

/-- src/paragon.py lines 106-138: get_meta_board_dimensions, with
self.total_boards passed as n.  none models the raised ValueError. -/
def getMetaBoardDimensions (n : Nat) : Option (Nat × Nat) :=
  if n < 1 then none
  else if n = 1 then some (1, 1)
  else if n = 2 then some (2, 1)
  else if n = 3 then some (3, 3)
  else some (2 * n - 4, 2 * n - 3)

/-- src/paragon.py lines 140-175: get_meta_board_start.  none models the
raised ValueError (the final unreachable else also raises). -/
def getMetaBoardStart (n : Nat) : Option (Nat × Nat) :=
  if n < 1 then none
  else if n = 1 then some (0, 0)
  else if n = 2 then some (1, 0)
  else if n = 3 then some (2, 1)
  else some (n - 1, n - 2)

/-- The meta board: a list of rows of Board values. -/
abbrev MetaGrid := List (List Board)

/-- src/paragon.py lines 184-192: generate_blank_board, an E by E grid of the
character written with code 45, named blank. -/
def generateBlankBoard (E : Nat) : Board :=
  ⟨"blank", List.replicate E (List.replicate E '-')⟩

/-- src/paragon.py lines 179-182: generate_blank_paragon. -/
def generateBlankParagon (E n : Nat) : Option MetaGrid :=
  match getMetaBoardDimensions n with
  | none => none
  | some (rows, cols) =>
    some (List.replicate rows (List.replicate cols (generateBlankBoard E)))

/-- The read meta_board[row][col].  A negative or too large index yields
none; see the header comment on Python negative indexing. -/
def gridGet? (m : MetaGrid) (row col : Int) : Option Board :=
  if 0 ≤ row ∧ 0 ≤ col then
    match m[row.toNat]? with
    | none => none
    | some r => r[col.toNat]?
  else none

/-- The write m[row][col] = b, performed by the search right after a
successful in-bounds read of the same cell. -/
def gridSet (m : MetaGrid) (row col : Int) (b : Board) : MetaGrid :=
  if 0 ≤ row ∧ 0 ≤ col then
    m.set row.toNat ((m.getD row.toNat []).set col.toNat b)
  else m

/-- The grid has exactly R rows of exactly C cells each. -/
def Rect (m : MetaGrid) (R C : Nat) : Prop :=
  m.length = R ∧ ∀ r ∈ m, r.length = C

instance (m : MetaGrid) (R C : Nat) : Decidable (Rect m R C) := by
  unfold Rect; infer_instance

/-- Number of cells of a grid not holding the blank placeholder. -/
def nonBlankCount (g : MetaGrid) : Nat :=
  (g.map (fun row => row.countP (fun b => b.name != "blank"))).sum

/-- Number of cells of a grid holding the blank placeholder. -/
def blankCount (g : MetaGrid) : Nat :=
  (g.map (fun row => row.countP (fun b => b.name == "blank"))).sum

/-- src/paragon.py line 214: directions = [0, 1, 2, 3], the four rotation
counts tried for each queued board. -/
def directions : List Nat := [0, 1, 2, 3]

/-- Sequences a Python for loop whose body may raise: applies f to every
element in order, concatenating the produced result lists; any failure
aborts the whole loop. -/
def collectSome {α : Type} (f : α → Option (List MetaGrid)) :
    List α → Option (List MetaGrid)
  | [] => some []
  | a :: rest =>
    match f a, collectSome f rest with
    | some r, some rs => some (r ++ rs)
    | _, _ => none

/-- src/paragon.py lines 231-238: the four guarded directional recursions of
recur_enumerate_boards, abstracted over the recursive call rec.  The guards
read len(meta_board) and len(meta_board[0]) on the grid m received by the
current call, while the recursion descends into the updated copy m2. -/
def stepDirs (rec : Int → Int → List Board → MetaGrid → Option (List MetaGrid))
    (row col : Int) (tq : List Board) (m m2 : MetaGrid) :
    Option (List MetaGrid) :=
  Option.bind
    (if row + 1 < (m.length : Int) then rec (row + 1) col tq m2 else some [])
    (fun r1 =>
  Option.bind
    (if 0 ≤ row - 1 then rec (row - 1) col tq m2 else some [])
    (fun r2 =>
  Option.bind
    (match m with
     | [] => none
     | mr0 :: _ =>
       if col + 1 < (mr0.length : Int) then rec row (col + 1) tq m2 else some [])
    (fun r3 =>
  Option.bind
    (if 0 ≤ col - 1 then rec row (col - 1) tq m2 else some [])
    (fun r4 =>
  some (r1 ++ r2 ++ r3 ++ r4)))))

/-- src/paragon.py lines 213-238: recur_enumerate_boards.  The recorded
layouts (the appends to self.meta_boards, in order) are returned; fuel
bounds the recursion depth and is always at least the queue length on every
reachable call, the fuel-0 nonempty-queue branch standing in for an
unreachable stuck state. -/
def recurAux : Nat → Int → Int → List Board → MetaGrid → Option (List MetaGrid)
  | 0, _, _, q, m => if q.length = 0 then some [m] else none
  | fuel + 1, row, col, q, m =>
    if q.length = 0 then some [m]
    else
      match gridGet? m row col with
      | none => none
      | some cell =>
        if cell.name ≠ "blank" then some []
        else
          collectSome (fun b =>
            collectSome (fun d =>
              stepDirs (recurAux fuel) row col
                (q.filter (fun x => x.name != b.name)) m
                (gridSet m row col (b.rotate d)))
              directions) q

/-- Entry form of recur_enumerate_boards: the queue can lose at most one
board per level, so the queue length is enough fuel. -/
def recurEnumerateBoards (row col : Int) (q : List Board) (m : MetaGrid) :
    Option (List MetaGrid) :=
  recurAux q.length row col q m

/-- src/paragon.py lines 196-210: enumerate_boards, with available_boards
passed as the list of its values in insertion order and board_edge_len as E.
The dict lookup available_boards with key base is the find? on names; a
missing base key, like a bad n, is a raised error (none). -/
def enumerateBoards (E : Nat) (boards : List Board) : Option (List MetaGrid) :=
  let n := boards.length
  match generateBlankParagon E n, getMetaBoardStart n,
        boards.find? (fun b => b.name == "base") with
  | some m0, some (r, c), some baseB =>
    let m1 := gridSet m0 (r : Int) (c : Int) baseB
    let queue := boards.filter (fun b => !(b.isBase))
    recurEnumerateBoards ((r : Int) - 1) (c : Int) queue m1
  | _, _, _ => none

/-- src/paragon.py lines 247-254: the stitching of one completed meta grid m
into text lines; E is self.board_edge_len.  Each band of E content lines is
followed by one divider line whose length the code computes from len(m), the
number of meta rows. -/
def stitchOne (E : Nat) (m : MetaGrid) : List String :=
  m.foldr (fun mRow acc =>
    ((List.range E).map (fun bRow =>
      String.intercalate (" | ")
        (mRow.map (fun mCol => String.mk (mCol.board.getD bRow [])))))
    ++ (String.mk (List.replicate (E * m.length + 3 * (m.length - 1)) '=')
        :: acc)) []

/-- src/paragon.py lines 241-257: stitch_boards over the recorded layouts
(an empty record list stitches nothing). -/
def stitchBoards (E : Nat) (ms : List MetaGrid) : List (List String) :=
  ms.map (stitchOne E)

/-
Heap model of the same recursion, used to verify the copy-on-branch
discipline (copy.deepcopy on line 225 and on line 217).  Grid objects live in
a heap, a reference is an index into it; copy.deepcopy allocates a fresh
object, the assignment m[row][col] = rotated_board writes through the fresh
reference.  Queues are passed by value because the Python code never mutates
a queue list (temp_queue is a fresh list comprehension); results are stored
as values because only deep copies are ever appended to self.meta_boards.
-/

/-- The mutable part of the Python process: the heap of grid objects and the
accumulator self.meta_boards. -/
structure SearchState where
  grids : List MetaGrid
  results : List MetaGrid
deriving DecidableEq

/-- Dereference a grid object. -/
def heapRead (st : SearchState) (ref : Nat) : MetaGrid :=
  st.grids.getD ref []

/-- Sequences a Python for loop whose body mutates state and may raise. -/
def optFoldl {α : Type} (f : SearchState → α → Option SearchState) :
    List α → SearchState → Option SearchState
  | [], st => some st
  | a :: rest, st =>
    match f st a with
    | none => none
    | some st' => optFoldl f rest st'

/-- Heap version of the four guarded directional recursions, lines 231-238.
The guards reread len(meta_board) and len(meta_board[0]) through the
reference mref the current call received; the recursion descends through the
fresh reference mref2. -/
def stepDirsH
    (rec : Int → Int → List Board → Nat → SearchState → Option SearchState)
    (row col : Int) (tq : List Board) (mref mref2 : Nat) (st2 : SearchState) :
    Option SearchState :=
  Option.bind
    (if row + 1 < ((heapRead st2 mref).length : Int)
     then rec (row + 1) col tq mref2 st2 else some st2)
    (fun s1 =>
  Option.bind
    (if 0 ≤ row - 1 then rec (row - 1) col tq mref2 s1 else some s1)
    (fun s2 =>
  Option.bind
    (match heapRead s2 mref with
     | [] => none
     | mr0 :: _ =>
       if col + 1 < (mr0.length : Int)
       then rec row (col + 1) tq mref2 s2 else some s2)
    (fun s3 =>
  Option.bind
    (if 0 ≤ col - 1 then rec row (col - 1) tq mref2 s3 else some s3)
    (fun s4 =>
  some s4))))

/-- Heap version of recur_enumerate_boards, lines 213-238: the grid argument
is a reference mref; line 217 appends a value copy of the dereferenced grid
to the results, line 225 allocates a fresh grid object (the deepcopy) and
line 227 mutates that fresh object only. -/
def recurHAux :
    Nat → Int → Int → List Board → Nat → SearchState → Option SearchState
  | 0, _, _, q, mref, st =>
    if q.length = 0 then some ⟨st.grids, st.results ++ [heapRead st mref]⟩
    else none
  | fuel + 1, row, col, q, mref, st =>
    if q.length = 0 then some ⟨st.grids, st.results ++ [heapRead st mref]⟩
    else
      match gridGet? (heapRead st mref) row col with
      | none => none
      | some cell =>
        if cell.name ≠ "blank" then some st
        else
          optFoldl (fun st' bd =>
            let g := heapRead st' mref
            let mref2 := st'.grids.length
            let st2 : SearchState :=
              ⟨(st'.grids ++ [g]).set mref2
                 (gridSet g row col (bd.1.rotate bd.2)), st'.results⟩
            stepDirsH (recurHAux fuel) row col
              (q.filter (fun x => x.name != bd.1.name)) mref mref2 st2)
            ((q.map (fun b => directions.map (fun d => (b, d)))).flatten) st

/-- Entry form of the heap model, with fuel the queue length as in
recurEnumerateBoards. -/
def recurEnumerateBoardsH (row col : Int) (q : List Board) (mref : Nat)
    (st : SearchState) : Option SearchState :=
  recurHAux q.length row col q mref st

/-
Concrete inputs of the scenarios fixed by the specification, and of the
counterexample runs.
-/

/-- The n=1 scenario board: base = [AB, CD]. -/
def baseAB : Board := ⟨"base", [['A', 'B'], ['C', 'D']]⟩

/-- The n=2 scenario base board X, a uniform 2 by 2 grid of the digit 1. -/
def boardX : Board := ⟨"base", [['1', '1'], ['1', '1']]⟩

/-- The n=2 scenario other board Y, a uniform 2 by 2 grid of the digit 2. -/
def boardY : Board := ⟨"Y", [['2', '2'], ['2', '2']]⟩

/-- A 1 by 1 base board for the n=3 counterexample run. -/
def baseSmall : Board := ⟨"base", [['0']]⟩

/-- A 1 by 1 other board for the n=3 counterexample run. -/
def boardA1 : Board := ⟨"A", [['a']]⟩

/-- A second 1 by 1 other board for the n=3 counterexample run. -/
def boardB1 : Board := ⟨"B", [['b']]⟩

/-- The first layout the n=3 counterexample run records, written out: boards
B, A, base stacked in the middle column of the 3 by 3 meta grid, the other
six cells still blank. -/
def cexGrid : MetaGrid :=
  [[generateBlankBoard 1, boardB1, generateBlankBoard 1],
   [generateBlankBoard 1, boardA1, generateBlankBoard 1],
   [generateBlankBoard 1, baseSmall, generateBlankBoard 1]]

/-- In-bounds neighbor count of a cell, written with the same four guard
conditions as lines 231-238 of the source. -/
def neighborCount (m : MetaGrid) (row col : Int) : Nat :=
  (if row + 1 < (m.length : Int) then 1 else 0) +
  (if 0 ≤ row - 1 then 1 else 0) +
  (if col + 1 < ((m.headD []).length : Int) then 1 else 0) +
  (if 0 ≤ col - 1 then 1 else 0)

/-- Concrete heap state for exercising the heap model: one grid object, a
2 by 1 grid holding a blank cell above the base board X. -/
def stW : SearchState := ⟨[[[generateBlankBoard 2], [boardX]]], []⟩

/-- The state after running the heap model on stW with the single queued
board Y targeted at the blank cell. -/
def stWout : SearchState := (recurHAux 1 0 0 [boardY] 0 stW).getD ⟨[], []⟩

/-- What a call may do to the mutable state: every grid object present
before the call is still there, unchanged (the call only allocates fresh
objects beyond them), and the result list is only appended to. -/
def HeapExtends (st st' : SearchState) : Prop :=
  st.grids.length ≤ st'.grids.length ∧
  (∀ i, i < st.grids.length → st'.grids[i]? = st.grids[i]?) ∧
  ∃ new, st'.results = st.results ++ new

/-
Theorems.
-/

/-- Claim C6: for every board b, rotate(b, 4) is content-equal (and
name-equal) to b, and rotate(b, k) = rotate(b, k + 4) for every k, because
the rotation count is reduced mod 4 before use. -/
theorem C6_rotation_mod4 (b : Board) (k : Nat) :
    (b.rotate 4).board = b.board ∧ (b.rotate 4).name = b.name ∧
    b.rotate k = b.rotate (k + 4) := by
  refine ⟨rfl, rfl, ?_⟩
  unfold Board.rotate
  rw [Nat.add_mod_right]

/-- Claim C7: dimensions(n) and anchor(n) raise (none) exactly when n < 1
and return normally for every n at least 1. -/
theorem C7_geometry_error_iff (n : Nat) :
    (n < 1 → getMetaBoardDimensions n = none ∧ getMetaBoardStart n = none) ∧
    (1 ≤ n →
      (getMetaBoardDimensions n).isSome ∧ (getMetaBoardStart n).isSome) := by
  constructor
  · intro h
    have hz : n = 0 := by omega
    subst hz
    decide
  · intro h
    match n, h with
    | 1, _ => decide
    | 2, _ => decide
    | 3, _ => decide
    | (m + 4), _ =>
      constructor
      · unfold getMetaBoardDimensions
        rw [if_neg (by omega), if_neg (by omega), if_neg (by omega),
            if_neg (by omega)]
        rfl
      · unfold getMetaBoardStart
        rw [if_neg (by omega), if_neg (by omega), if_neg (by omega),
            if_neg (by omega)]
        rfl

/-- Witness for C7 at the concrete inputs 0 and 5. -/
theorem C7_geometry_error_iff_witness :
    (getMetaBoardDimensions 0 = none ∧ getMetaBoardStart 0 = none) ∧
    ((getMetaBoardDimensions 5).isSome ∧ (getMetaBoardStart 5).isSome) :=
  ⟨(C7_geometry_error_iff 0).1 (by decide),
   (C7_geometry_error_iff 5).2 (by decide)⟩

/-- Claim C4: dimensions(n) and anchor(n) reproduce the spec tables for
n = 1..9, and for every n at least 1 the anchor cell lies inside the
dimensions. -/
theorem C4_geometry_tables :
    (getMetaBoardDimensions 1 = some (1, 1) ∧
     getMetaBoardDimensions 2 = some (2, 1) ∧
     getMetaBoardDimensions 3 = some (3, 3) ∧
     getMetaBoardDimensions 4 = some (4, 5) ∧
     getMetaBoardDimensions 5 = some (6, 7) ∧
     getMetaBoardDimensions 6 = some (8, 9) ∧
     getMetaBoardDimensions 7 = some (10, 11) ∧
     getMetaBoardDimensions 8 = some (12, 13) ∧
     getMetaBoardDimensions 9 = some (14, 15)) ∧
    (getMetaBoardStart 1 = some (0, 0) ∧
     getMetaBoardStart 2 = some (1, 0) ∧
     getMetaBoardStart 3 = some (2, 1) ∧
     getMetaBoardStart 4 = some (3, 2) ∧
     getMetaBoardStart 5 = some (4, 3) ∧
     getMetaBoardStart 6 = some (5, 4) ∧
     getMetaBoardStart 7 = some (6, 5) ∧
     getMetaBoardStart 8 = some (7, 6) ∧
     getMetaBoardStart 9 = some (8, 7)) ∧
    (∀ n : Nat, 1 ≤ n → ∃ r c R C,
      getMetaBoardStart n = some (r, c) ∧
      getMetaBoardDimensions n = some (R, C) ∧ r < R ∧ c < C) := by
  refine ⟨by decide, by decide, ?_⟩
  intro n h
  match n, h with
  | 1, _ => exact ⟨0, 0, 1, 1, by decide, by decide, by decide, by decide⟩
  | 2, _ => exact ⟨1, 0, 2, 1, by decide, by decide, by decide, by decide⟩
  | 3, _ => exact ⟨2, 1, 3, 3, by decide, by decide, by decide, by decide⟩
  | (m + 4), _ =>
    refine ⟨m + 3, m + 2, 2 * (m + 4) - 4, 2 * (m + 4) - 3, ?_, ?_,
      by omega, by omega⟩
    · unfold getMetaBoardStart
      rw [if_neg (by omega), if_neg (by omega), if_neg (by omega),
          if_neg (by omega)]
      have h1 : m + 4 - 1 = m + 3 := by omega
      have h2 : m + 4 - 2 = m + 2 := by omega
      rw [h1, h2]
    · unfold getMetaBoardDimensions
      rw [if_neg (by omega), if_neg (by omega), if_neg (by omega),
          if_neg (by omega)]

/-- Witness for C4 at the concrete input n = 12. -/
theorem C4_geometry_tables_witness :
    ∃ r c R C, getMetaBoardStart 12 = some (r, c) ∧
      getMetaBoardDimensions 12 = some (R, C) ∧ r < R ∧ c < C :=
  C4_geometry_tables.2.2 12 (by decide)

/-- Claim C5: for the n=1 input, the search terminates at once because the
empty-queue check precedes the occupancy check, recording the single grid
[[base]], even though its target cell, row -1, is outside the grid (the
occupancy read there would fail). -/
theorem C5_single_board_scenario :
    enumerateBoards 2 [baseAB] = some [[[baseAB]]] ∧
    recurEnumerateBoards (-1) 0 [] [[baseAB]] = some [[[baseAB]]] ∧
    gridGet? [[baseAB]] (-1) 0 = none := by
  refine ⟨by decide, by decide, by decide⟩

/-- Claim C3: the n=2 scenario records exactly 4 layouts, one per rotation
of Y (all content-identical since Y is uniform), each the 2 by 1 grid with
Y above the base board X. -/
theorem C3_two_board_scenario :
    getMetaBoardDimensions 2 = some (2, 1) ∧
    getMetaBoardStart 2 = some (1, 0) ∧
    enumerateBoards 2 [boardX, boardY] =
      some (List.replicate 4 [[boardY], [boardX]]) := by
  refine ⟨by decide, by decide, by decide⟩

/-- Claim C1 (code bug evaluation): on the n=1, E=2 scenario the divider has
length 2 as claimed, but on the n=2 scenario each stitched content line has
length 2 while the code produces dividers of length 7, because line 254
computes the divider from len(m), the meta row count, instead of the column
count. -/
theorem C1_stitch_divider_bug :
    stitchOne 2 [[baseAB]] = ["AB", "CD", "=="] ∧
    stitchOne 2 [[boardY], [boardX]] =
      ["22", "22", "=======", "11", "11", "======="] ∧
    ((stitchOne 2 [[boardY], [boardX]]).getD 2 ("")).length ≠
      ((stitchOne 2 [[boardY], [boardX]]).getD 0 ("")).length := by
  refine ⟨by decide, by decide, by decide⟩

/-- Claim C2 (counterexample): running the search on three 1 by 1 boards
records 288 layouts whose first one, written out as cexGrid, has 6 blank
cells, refuting the zero-blank-cells claim. -/
theorem C2_blank_cells_counterexample :
    ((enumerateBoards 1 [baseSmall, boardA1, boardB1]).getD []).headD []
      = cexGrid ∧
    cexGrid ∈ (enumerateBoards 1 [baseSmall, boardA1, boardB1]).getD [] ∧
    blankCount cexGrid = 6 := by
  refine ⟨by decide, by decide, by decide⟩

/-
Helper lemmas about the grid primitives.
-/

/-- A successful occupancy read means both indices are nonnegative and both
lookups hit. -/
theorem gridGet?_eq_some_unpack {m : MetaGrid} {row col : Int} {cell : Board}
    (h : gridGet? m row col = some cell) :
    0 ≤ row ∧ 0 ≤ col ∧
      ∃ r, m[row.toNat]? = some r ∧ r[col.toNat]? = some cell := by
  unfold gridGet? at h
  by_cases hc : 0 ≤ row ∧ 0 ≤ col
  · rw [if_pos hc] at h
    cases hm : m[row.toNat]? with
    | none => rw [hm] at h; exact Option.noConfusion h
    | some r => rw [hm] at h; exact ⟨hc.1, hc.2, r, rfl, h⟩
  · rw [if_neg hc] at h; exact Option.noConfusion h

/-- An in-bounds occupancy read succeeds. -/
theorem gridGet?_isSome_of_bounds {m : MetaGrid} {R C : Nat} {row col : Int}
    (hrect : Rect m R C) (h0r : 0 ≤ row) (hrR : row < (R : Int))
    (h0c : 0 ≤ col) (hcC : col < (C : Int)) :
    ∃ cell, gridGet? m row col = some cell := by
  obtain ⟨hlen, hrows⟩ := hrect
  have hr : row.toNat < m.length := by omega
  have hrw : m[row.toNat]? = some m[row.toNat] := List.getElem?_eq_getElem hr
  have hmem : m[row.toNat] ∈ m := List.getElem_mem hr
  have hcl : col.toNat < m[row.toNat].length := by
    rw [hrows _ hmem]; omega
  refine ⟨m[row.toNat][col.toNat], ?_⟩
  unfold gridGet?
  rw [if_pos ⟨h0r, h0c⟩, hrw]
  exact List.getElem?_eq_getElem hcl

/-- Removing a queued board by its own name drops at least that board. -/
theorem filter_name_length_lt {q : List Board} {b : Board} (hb : b ∈ q) :
    (q.filter (fun x => x.name != b.name)).length < q.length := by
  refine List.length_filter_lt_length_iff_exists.mpr ⟨b, hb, ?_⟩
  simp

/-- With pairwise distinct names, removing a member board by name drops
exactly one element. -/
theorem filter_name_length_succ {q : List Board} {s : String} {b : Board}
    (hn : (q.map Board.name).Nodup) (hb : b ∈ q) (hbs : b.name = s) :
    (q.filter (fun x => x.name != s)).length + 1 = q.length := by
  induction q with
  | nil => cases hb
  | cons x t ih =>
    rw [List.map_cons, List.nodup_cons] at hn
    rcases List.mem_cons.mp hb with hbx | hbt
    · subst hbx
      have hkeep : t.filter (fun y => y.name != s) = t := by
        refine List.filter_eq_self.mpr ?_
        intro a ha
        have hne : a.name ≠ s := by
          intro he
          exact hn.1 (hbs ▸ he ▸ List.mem_map_of_mem Board.name ha)
        simp [hne]
      rw [List.filter_cons, if_neg (by simp [hbs]), hkeep]
      simp
    · have hxs : x.name ≠ s := by
        intro he
        exact hn.1 (he ▸ hbs ▸ List.mem_map_of_mem Board.name hbt)
      rw [List.filter_cons, if_pos (by simp [hxs])]
      have := ih hn.2 hbt
      simp only [List.length_cons]
      omega

/-- Filtering keeps the names pairwise distinct. -/
theorem names_nodup_filter {q : List Board} {p : Board → Bool}
    (hn : (q.map Board.name).Nodup) : ((q.filter p).map Board.name).Nodup :=
  List.Nodup.sublist (List.Sublist.map Board.name (List.filter_sublist q)) hn

/-- Row-level counting: overwriting a non-matching element with a matching
one increments countP. -/
theorem countP_set_incr {p : Board → Bool} {r : List Board} {j : Nat}
    {cell bnew : Board} (hj : r[j]? = some cell) (hcell : p cell = false)
    (hbnew : p bnew = true) :
    (r.set j bnew).countP p = r.countP p + 1 := by
  obtain ⟨hlt, hget⟩ := List.getElem?_eq_some.mp hj
  rw [List.countP_set p r j bnew hlt, hget, hcell, hbnew]
  simp

/-- Grid-level counting: replacing row i by a row with one more matching
element adds one to the total. -/
theorem nonBlank_set_incr {m : MetaGrid} {i : Nat} {r rnew : List Board}
    (hi : m[i]? = some r)
    (hcnt : rnew.countP (fun b => b.name != "blank")
      = r.countP (fun b => b.name != "blank") + 1) :
    nonBlankCount (m.set i rnew) = nonBlankCount m + 1 := by
  induction m generalizing i with
  | nil => exact Option.noConfusion hi
  | cons x t ih =>
    cases i with
    | zero =>
      have hx : x = r := by simpa using hi
      subst hx
      simp [nonBlankCount, hcnt]
      omega
    | succ i =>
      have hi' : t[i]? = some r := by simpa using hi
      have := ih hi'
      simp only [List.set_cons_succ, nonBlankCount, List.map_cons,
        List.sum_cons] at this ⊢
      omega

/-- Line 227: writing a non-blank board over the blank cell just read by the
occupancy check adds exactly one non-blank cell. -/
theorem nonBlankCount_gridSet {m : MetaGrid} {row col : Int} {cell bnew : Board}
    (h : gridGet? m row col = some cell) (hcell : cell.name = "blank")
    (hbnew : bnew.name ≠ "blank") :
    nonBlankCount (gridSet m row col bnew) = nonBlankCount m + 1 := by
  obtain ⟨h0r, h0c, r, hr, hc⟩ := gridGet?_eq_some_unpack h
  unfold gridSet
  rw [if_pos ⟨h0r, h0c⟩]
  have hgd : m.getD row.toNat [] = r := by
    rw [List.getD_eq_getElem?_getD, hr]; rfl
  rw [hgd]
  refine nonBlank_set_incr hr (countP_set_incr hc ?_ ?_)
  · simp [hcell]
  · simp [hbnew]

/-- The blank paragon grid is rectangular. -/
theorem rect_replicate (R C : Nat) (b : Board) :
    Rect (List.replicate R (List.replicate C b)) R C := by
  constructor
  · simp
  · intro r hr
    rw [List.eq_of_mem_replicate hr]
    simp

/-- Cell writes keep the grid rectangular. -/
theorem rect_gridSet {m : MetaGrid} {R C : Nat} {row col : Int} {b : Board}
    (hrect : Rect m R C) : Rect (gridSet m row col b) R C := by
  obtain ⟨hlen, hrows⟩ := hrect
  unfold gridSet
  split
  · by_cases hi : row.toNat < m.length
    · constructor
      · simp [hlen]
      · intro r hr
        rcases List.mem_or_eq_of_mem_set hr with hmem | heq
        · exact hrows r hmem
        · subst heq
          rw [List.length_set]
          have hgd : m.getD row.toNat [] = m[row.toNat] := by
            rw [List.getD_eq_getElem?_getD, List.getElem?_eq_getElem hi]; rfl
          rw [hgd]
          exact hrows _ (List.getElem_mem hi)
    · rw [List.set_eq_of_length_le (by omega)]
      exact ⟨hlen, hrows⟩
  · exact ⟨hlen, hrows⟩

/-- The blank grid has no non-blank cell. -/
theorem nonBlankCount_blank_paragon (R C E : Nat) :
    nonBlankCount (List.replicate R (List.replicate C (generateBlankBoard E)))
      = 0 := by
  induction R with
  | zero => rfl
  | succ R ih =>
    simp only [List.replicate_succ, nonBlankCount, List.map_cons,
      List.sum_cons] at ih ⊢
    rw [ih]
    have : (List.replicate C (generateBlankBoard E)).countP
        (fun b => b.name != "blank") = 0 := by
      rw [List.countP_eq_zero]
      intro a ha
      rw [List.eq_of_mem_replicate ha]
      simp [generateBlankBoard]
    omega

/-- Every cell is blank or non-blank: the two counts partition the cells. -/
theorem blank_nonBlank_partition {g : MetaGrid} {C : Nat}
    (hrows : ∀ r ∈ g, r.length = C) :
    blankCount g + nonBlankCount g = g.length * C := by
  induction g with
  | nil => simp [blankCount, nonBlankCount]
  | cons x t ih =>
    have hx : x.length = C := hrows x (by simp)
    have ht := ih (fun r hr => hrows r (by simp [hr]))
    have hrow : x.countP (fun b => b.name == "blank")
        + x.countP (fun b => b.name != "blank") = C := by
      have hsplit := List.length_eq_countP_add_countP
        (fun b => b.name == "blank") x
      have hcongr : x.countP (fun a => decide ¬(a.name == "blank") = true)
          = x.countP (fun b => b.name != "blank") := by
        refine List.countP_congr ?_
        intro a _
        cases hb : a.name == "blank" <;> simp [hb] <;> simpa using hb
      omega
    simp only [blankCount, nonBlankCount, List.map_cons, List.sum_cons,
      List.length_cons] at ht ⊢
    have : (t.length + 1) * C = t.length * C + C := by ring
    omega

/-
Helper lemmas about the loop combinators of the search.
-/

/-- Binding a sure value into a surely-succeeding continuation succeeds. -/
theorem option_bind_isSome {α β : Type} {o : Option α} {f : α → Option β}
    (ho : o.isSome) (hf : ∀ v, (f v).isSome) : (o.bind f).isSome := by
  obtain ⟨v, hv⟩ := Option.isSome_iff_exists.mp ho
  rw [hv]
  exact hf v

/-- A loop over bodies that all succeed succeeds. -/
theorem collectSome_isSome {α : Type} {f : α → Option (List MetaGrid)}
    {l : List α} (h : ∀ a ∈ l, (f a).isSome) : (collectSome f l).isSome := by
  induction l with
  | nil => simp [collectSome]
  | cons a rest ih =>
    obtain ⟨r, hr⟩ := Option.isSome_iff_exists.mp (h a (by simp))
    obtain ⟨rs, hrs⟩ :=
      Option.isSome_iff_exists.mp (ih (fun x hx => h x (by simp [hx])))
    simp [collectSome, hr, hrs]

/-- Everything a successful loop collects comes from one of its bodies. -/
theorem collectSome_mem {α : Type} {f : α → Option (List MetaGrid)}
    {l : List α} {res : List MetaGrid} {g : MetaGrid}
    (h : collectSome f l = some res) (hg : g ∈ res) :
    ∃ a ∈ l, ∃ r, f a = some r ∧ g ∈ r := by
  induction l generalizing res with
  | nil =>
    simp [collectSome] at h
    subst h
    exact absurd hg (by simp)
  | cons a rest ih =>
    unfold collectSome at h
    cases hfa : f a with
    | none => rw [hfa] at h; exact Option.noConfusion h
    | some r =>
      cases hrest : collectSome f rest with
      | none => rw [hfa, hrest] at h; exact Option.noConfusion h
      | some rs =>
        rw [hfa, hrest] at h
        injection h with h
        subst h
        rcases List.mem_append.mp hg with h1 | h2
        · exact ⟨a, by simp, r, hfa, h1⟩
        · obtain ⟨a', ha', r', hr', hg'⟩ := ih hrest h2
          exact ⟨a', by simp [ha'], r', hr', hg'⟩

/-- The four guarded directional recursions succeed whenever the recursive
call succeeds on every in-bounds cell. -/
theorem stepDirs_isSome
    {rec : Int → Int → List Board → MetaGrid → Option (List MetaGrid)}
    {row col : Int} {tq : List Board} {m m2 : MetaGrid} {R C : Nat}
    (hrect : Rect m R C) (h0r : 0 ≤ row) (hrR : row < (R : Int))
    (h0c : 0 ≤ col) (hcC : col < (C : Int))
    (hrec : ∀ r' c', 0 ≤ r' → r' < (R : Int) → 0 ≤ c' → c' < (C : Int) →
      (rec r' c' tq m2).isSome) :
    (stepDirs rec row col tq m m2).isSome := by
  obtain ⟨hlen, hrows⟩ := hrect
  obtain ⟨mr0, mt, rfl⟩ : ∃ r t, m = r :: t := by
    cases m with
    | nil =>
      simp at hlen
      omega
    | cons a t => exact ⟨a, t, rfl⟩
  have hr0len : mr0.length = C := hrows mr0 (by simp)
  unfold stepDirs
  refine option_bind_isSome ?_ (fun r1 => option_bind_isSome ?_ (fun r2 =>
    option_bind_isSome ?_ (fun r3 => option_bind_isSome ?_ (fun r4 => rfl))))
  · split
    · next hcond => exact hrec _ _ (by omega) (by omega) h0c hcC
    · rfl
  · split
    · next hcond => exact hrec _ _ (by omega) (by omega) h0c hcC
    · rfl
  · show (if col + 1 < (mr0.length : Int)
      then rec row (col + 1) tq m2 else some []).isSome
    split
    · next hcond => exact hrec _ _ h0r hrR (by omega) (by omega)
    · rfl
  · split
    · next hcond => exact hrec _ _ h0r hrR (by omega) (by omega)
    · rfl

/-- Everything the four directional recursions collect comes from one of the
recursive calls. -/
theorem stepDirs_mem
    {rec : Int → Int → List Board → MetaGrid → Option (List MetaGrid)}
    {row col : Int} {tq : List Board} {m m2 : MetaGrid}
    {res : List MetaGrid} {g : MetaGrid}
    (h : stepDirs rec row col tq m m2 = some res) (hg : g ∈ res) :
    ∃ r' c' l', rec r' c' tq m2 = some l' ∧ g ∈ l' := by
  unfold stepDirs at h
  cases hv1 : (if row + 1 < (m.length : Int)
      then rec (row + 1) col tq m2 else some []) with
  | none => rw [hv1] at h; exact Option.noConfusion h
  | some r1 =>
  rw [hv1, Option.some_bind] at h
  cases hv2 : (if 0 ≤ row - 1 then rec (row - 1) col tq m2 else some []) with
  | none => rw [hv2] at h; exact Option.noConfusion h
  | some r2 =>
  rw [hv2, Option.some_bind] at h
  cases hv3 : (match m with
     | [] => none
     | mr0 :: _ =>
       if col + 1 < (mr0.length : Int)
       then rec row (col + 1) tq m2 else some []) with
  | none => rw [hv3] at h; exact Option.noConfusion h
  | some r3 =>
  rw [hv3, Option.some_bind] at h
  cases hv4 : (if 0 ≤ col - 1 then rec row (col - 1) tq m2 else some []) with
  | none => rw [hv4] at h; exact Option.noConfusion h
  | some r4 =>
  rw [hv4, Option.some_bind] at h
  injection h with h
  subst h
  rcases List.mem_append.mp hg with h123 | h4
  rcases List.mem_append.mp h123 with h12 | h3
  rcases List.mem_append.mp h12 with h1 | h2
  · by_cases hc : row + 1 < (m.length : Int)
    · rw [if_pos hc] at hv1
      exact ⟨row + 1, col, r1, hv1, h1⟩
    · rw [if_neg hc] at hv1
      injection hv1 with hv1
      subst hv1
      exact absurd h1 (by simp)
  · by_cases hc : 0 ≤ row - 1
    · rw [if_pos hc] at hv2
      exact ⟨row - 1, col, r2, hv2, h2⟩
    · rw [if_neg hc] at hv2
      injection hv2 with hv2
      subst hv2
      exact absurd h2 (by simp)
  · cases m with
    | nil => exact Option.noConfusion hv3
    | cons mr0 mt =>
      have hv3' : (if col + 1 < (mr0.length : Int)
          then rec row (col + 1) tq m2 else some []) = some r3 := hv3
      by_cases hc : col + 1 < (mr0.length : Int)
      · rw [if_pos hc] at hv3'
        exact ⟨row, col + 1, r3, hv3', h3⟩
      · rw [if_neg hc] at hv3'
        injection hv3' with hv3'
        subst hv3'
        exact absurd h3 (by simp)
  · by_cases hc : 0 ≤ col - 1
    · rw [if_pos hc] at hv4
      exact ⟨row, col - 1, r4, hv4, h4⟩
    · rw [if_neg hc] at hv4
      injection hv4 with hv4
      subst hv4
      exact absurd h4 (by simp)

/-
The two main invariants of the recursion: totality (no failing access) and
the non-blank cell count of every recorded layout.
-/

/-- With enough fuel, a rectangular grid and an in-bounds target cell (or an
already empty queue), the recursion never fails: no occupancy check reads
outside the grid and no branch gets stuck. -/
theorem recurAux_isSome {R C : Nat} :
    ∀ (fuel : Nat) (q : List Board) (row col : Int) (m : MetaGrid),
      q.length ≤ fuel → Rect m R C → 1 ≤ R → 1 ≤ C →
      (q = [] ∨ (0 ≤ row ∧ row < (R : Int) ∧ 0 ≤ col ∧ col < (C : Int))) →
      (recurAux fuel row col q m).isSome := by
  intro fuel
  induction fuel with
  | zero =>
    intro q row col m hq _ _ _ _
    have hq0 : q = [] := List.eq_nil_of_length_eq_zero (by omega)
    subst hq0
    simp [recurAux]
  | succ fuel ih =>
    intro q row col m hq hrect hR hC hpos
    cases q with
    | nil => simp [recurAux]
    | cons b0 qt =>
      rcases hpos with h | ⟨h0r, hrR, h0c, hcC⟩
      · exact absurd h (by simp)
      obtain ⟨cell, hcell⟩ := gridGet?_isSome_of_bounds hrect h0r hrR h0c hcC
      simp only [recurAux]
      rw [if_neg (by simp), hcell]
      dsimp only
      by_cases hname : cell.name = "blank"
      · rw [if_neg (fun hcon => hcon hname)]
        refine collectSome_isSome ?_
        intro b hb
        refine collectSome_isSome ?_
        intro d _
        refine stepDirs_isSome hrect h0r hrR h0c hcC ?_
        intro r' c' h0r' hrR' h0c' hcC'
        refine ih _ r' c' _ ?_ (rect_gridSet hrect) hR hC
          (Or.inr ⟨h0r', hrR', h0c', hcC'⟩)
        have := filter_name_length_lt hb
        simp only [List.length_cons] at hq this
        omega
      · rw [if_pos hname]
        rfl

/-- Every layout the recursion records extends the received grid by exactly
one non-blank cell per queued board, and stays rectangular. -/
theorem recurAux_count {R C : Nat} :
    ∀ (fuel : Nat) (q : List Board) (row col : Int) (m : MetaGrid)
      (res : List MetaGrid),
      Rect m R C → (q.map Board.name).Nodup →
      (∀ b ∈ q, b.name ≠ "blank") →
      recurAux fuel row col q m = some res →
      ∀ g ∈ res,
        nonBlankCount g = nonBlankCount m + q.length ∧ Rect g R C := by
  intro fuel
  induction fuel with
  | zero =>
    intro q row col m res hrect _ _ hrun g hg
    simp only [recurAux] at hrun
    split at hrun
    · next hq0 =>
      injection hrun with hrun
      subst hrun
      have hgm : g = m := by simpa using hg
      subst hgm
      exact ⟨by omega, hrect⟩
    · exact Option.noConfusion hrun
  | succ fuel ih =>
    intro q row col m res hrect hnodup hnb hrun g hg
    simp only [recurAux] at hrun
    split at hrun
    · next hq0 =>
      injection hrun with hrun
      subst hrun
      have hgm : g = m := by simpa using hg
      subst hgm
      exact ⟨by omega, hrect⟩
    · next hq0 =>
      cases hcell : gridGet? m row col with
      | none => rw [hcell] at hrun; exact Option.noConfusion hrun
      | some cell =>
        rw [hcell] at hrun
        dsimp only at hrun
        split at hrun
        · next hne =>
          injection hrun with hrun
          subst hrun
          exact absurd hg (by simp)
        · next hne =>
          have hname : cell.name = "blank" := not_not.mp hne
          obtain ⟨b, hb, r1, hfb, hgr1⟩ := collectSome_mem hrun hg
          obtain ⟨d, hd, r2, hfd, hgr2⟩ := collectSome_mem hfb hgr1
          obtain ⟨r', c', l', hrecc, hgl⟩ := stepDirs_mem hfd hgr2
          have hbname : b.name ≠ "blank" := hnb b hb
          have hm2 : Rect (gridSet m row col (b.rotate d)) R C :=
            rect_gridSet hrect
          have htqn : ((q.filter (fun x => x.name != b.name)).map
              Board.name).Nodup := names_nodup_filter hnodup
          have htqb : ∀ x ∈ q.filter (fun x => x.name != b.name),
              x.name ≠ "blank" :=
            fun x hx => hnb x (List.mem_of_mem_filter hx)
          obtain ⟨hcount, hrectg⟩ := ih _ r' c' _ l' hm2 htqn htqb hrecc g hgl
          refine ⟨?_, hrectg⟩
          have hstep : nonBlankCount (gridSet m row col (b.rotate d))
              = nonBlankCount m + 1 :=
            nonBlankCount_gridSet hcell hname hbname
          have hlen : (q.filter (fun x => x.name != b.name)).length + 1
              = q.length := filter_name_length_succ hnodup hb rfl
          omega

/-- Geometry facts shared below: for any n at least 1 the anchor lies
strictly inside the dimensions, both dimensions are positive, and from two
boards on the anchor row index is positive. -/
theorem geom_full (n : Nat) (h : 1 ≤ n) :
    ∃ r c R C, getMetaBoardStart n = some (r, c) ∧
      getMetaBoardDimensions n = some (R, C) ∧
      r < R ∧ c < C ∧ 1 ≤ R ∧ 1 ≤ C ∧ (2 ≤ n → 1 ≤ r) := by
  match n, h with
  | 1, _ =>
    exact ⟨0, 0, 1, 1, by decide, by decide, by decide, by decide, by decide,
      by decide, by omega⟩
  | 2, _ =>
    exact ⟨1, 0, 2, 1, by decide, by decide, by decide, by decide, by decide,
      by decide, by omega⟩
  | 3, _ =>
    exact ⟨2, 1, 3, 3, by decide, by decide, by decide, by decide, by decide,
      by decide, by omega⟩
  | (m + 4), _ =>
    refine ⟨m + 3, m + 2, 2 * (m + 4) - 4, 2 * (m + 4) - 3, ?_, ?_,
      by omega, by omega, by omega, by omega, by omega⟩
    · unfold getMetaBoardStart
      rw [if_neg (by omega), if_neg (by omega), if_neg (by omega),
          if_neg (by omega)]
      have h1 : m + 4 - 1 = m + 3 := by omega
      have h2 : m + 4 - 2 = m + 2 := by omega
      rw [h1, h2]
    · unfold getMetaBoardDimensions
      rw [if_neg (by omega), if_neg (by omega), if_neg (by omega),
          if_neg (by omega)]

/-- The occupancy read of the blank paragon grid at an in-bounds cell yields
the blank board. -/
theorem gridGet?_blank_paragon {R C E r c : Nat} (hr : r < R) (hc : c < C) :
    gridGet? (List.replicate R (List.replicate C (generateBlankBoard E)))
      (r : Int) (c : Int) = some (generateBlankBoard E) := by
  unfold gridGet?
  rw [if_pos ⟨Int.natCast_nonneg r, Int.natCast_nonneg c⟩]
  rw [Int.toNat_natCast, Int.toNat_natCast]
  rw [List.getElem?_replicate, if_pos hr]
  dsimp only
  rw [List.getElem?_replicate, if_pos hc]

/-- Claim C8: for every well-formed input (uniquely named E by E boards, the
base board among them), the search run returns a value: no grid access
fails, every branch records or prunes. -/
theorem C8_search_never_fails (E : Nat) (boards : List Board)
    (hnodup : (boards.map Board.name).Nodup)
    (hsq : ∀ b ∈ boards, b.board.length = E ∧ ∀ r ∈ b.board, r.length = E)
    (hbase : ∃ b ∈ boards, b.name = "base") :
    (enumerateBoards E boards).isSome := by
  obtain ⟨b0, hb0, hb0n⟩ := hbase
  have hn : 1 ≤ boards.length :=
    List.length_pos.mpr (by rintro rfl; cases hb0)
  obtain ⟨r, c, R, C, hstart, hdims, hrR, hcC, hR, hC, hr1⟩ :=
    geom_full boards.length hn
  have hfind : (boards.find? (fun b => b.name == "base")).isSome := by
    rw [List.find?_isSome]
    exact ⟨b0, hb0, by simp [hb0n]⟩
  obtain ⟨baseB, hbaseB⟩ := Option.isSome_iff_exists.mp hfind
  unfold enumerateBoards generateBlankParagon
  dsimp only
  rw [hdims, hstart, hbaseB]
  dsimp only
  unfold recurEnumerateBoards
  refine recurAux_isSome _ _ _ _ _ (le_refl _)
    (rect_gridSet (rect_replicate R C _)) hR hC ?_
  by_cases h2 : 2 ≤ boards.length
  · right
    have := hr1 h2
    refine ⟨by omega, by omega, by omega, by omega⟩
  · left
    have h1 : boards.length = 1 := by omega
    obtain ⟨a, ha⟩ := List.length_eq_one.mp h1
    have hab : b0 = a := by
      rw [ha] at hb0
      simpa using hb0
    subst hab
    rw [ha]
    have : b0.isBase = true := by simp [Board.isBase, hb0n]
    simp [List.filter, this]

/-- Witness for C8 on the two-board scenario input. -/
theorem C8_search_never_fails_witness :
    (enumerateBoards 2 [boardX, boardY]).isSome :=
  C8_search_never_fails 2 [boardX, boardY] (by decide) (by decide)
    ⟨boardX, by decide, by decide⟩

/-- Claim C2 as amended: every layout the search records on n uniquely
named boards (base included, the blank name reserved) has exactly n
non-blank cells, and its blank cell count is rows times cols minus n, for
the dimensions the geometry assigns to n; that blank count is zero only
when rows times cols equals n, which holds for n = 1 and n = 2 but for no
larger n. -/
theorem C2_exact_nonblank_cells (E : Nat) (boards : List Board)
    (res : List MetaGrid) (R C : Nat)
    (hnodup : (boards.map Board.name).Nodup)
    (hbase : ∃ b ∈ boards, b.name = "base")
    (hnoblank : ∀ b ∈ boards, b.name ≠ "blank")
    (hdims : getMetaBoardDimensions boards.length = some (R, C))
    (henum : enumerateBoards E boards = some res) :
    ∀ g ∈ res, nonBlankCount g = boards.length ∧
      blankCount g = R * C - boards.length := by
  obtain ⟨b0, hb0, hb0n⟩ := hbase
  have hn : 1 ≤ boards.length :=
    List.length_pos.mpr (by rintro rfl; cases hb0)
  obtain ⟨r', c', R', C', hstart', hdims', hrR', hcC', _, _, _⟩ :=
    geom_full boards.length hn
  rw [hdims] at hdims'
  injection hdims' with h
  injection h with h1 h2
  subst h1
  subst h2
  unfold enumerateBoards generateBlankParagon at henum
  dsimp only at henum
  rw [hdims, hstart'] at henum
  cases hfind : boards.find? (fun b => b.name == "base") with
  | none =>
    rw [hfind] at henum
    exact Option.noConfusion henum
  | some baseB =>
    rw [hfind] at henum
    dsimp only at henum
    unfold recurEnumerateBoards at henum
    have hbaseBn : baseB.name = "base" := by
      simpa using List.find?_some hfind
    have hbaseBm : baseB ∈ boards := List.mem_of_find?_eq_some hfind
    have hcell : gridGet?
        (List.replicate R (List.replicate C (generateBlankBoard E)))
        (r' : Int) (c' : Int) = some (generateBlankBoard E) :=
      gridGet?_blank_paragon hrR' hcC'
    have hm1 : nonBlankCount (gridSet
        (List.replicate R (List.replicate C (generateBlankBoard E)))
        (r' : Int) (c' : Int) baseB) = 1 := by
      rw [nonBlankCount_gridSet hcell (by simp [generateBlankBoard])
        (by simp [hbaseBn]), nonBlankCount_blank_paragon]
    have hqlen : (boards.filter (fun b => !(b.isBase))).length + 1
        = boards.length := by
      have hpe : (fun b : Board => !(b.isBase))
          = (fun b : Board => b.name != "base") := by
        funext x
        rfl
      rw [hpe]
      exact filter_name_length_succ hnodup hbaseBm hbaseBn
    intro g hg
    obtain ⟨hcnt, hrect⟩ := recurAux_count _ _ _ _ _ _
      (rect_gridSet (rect_replicate R C (generateBlankBoard E)))
      (names_nodup_filter hnodup)
      (fun x hx => hnoblank x (List.mem_of_mem_filter hx)) henum g hg
    constructor
    · omega
    · have hpart := blank_nonBlank_partition hrect.2
      rw [hrect.1] at hpart
      omega

/-- Witness for the amended C2 on the two-board scenario: each recorded
layout has exactly 2 non-blank cells and 2 times 1 minus 2 blank cells. -/
theorem C2_exact_nonblank_cells_witness :
    nonBlankCount [[boardY], [boardX]] = 2 ∧
    blankCount [[boardY], [boardX]] = 2 * 1 - 2 :=
  C2_exact_nonblank_cells 2 [boardX, boardY]
    (List.replicate 4 [[boardY], [boardX]]) 2 1 (by decide)
    ⟨boardX, by decide, by decide⟩ (by decide) (by decide) (by decide)
    [[boardY], [boardX]] (by decide)

/-- Claim C10: when the last queued board is placed at an in-bounds blank
cell, each rotation branch records one copy of the finished grid per
in-bounds neighbor of that cell, because the empty-queue terminal check
fires in each directional recursion; with at least two cells in the grid
that copy count is between 1 and 4. -/
theorem C10_last_board_fanout (b : Board) (m : MetaGrid) (R C : Nat)
    (row col : Int) (cell : Board) (hrect : Rect m R C)
    (hcell : gridGet? m row col = some cell) (hblank : cell.name = "blank") :
    recurEnumerateBoards row col [b] m =
      some ((directions.map (fun d =>
        List.replicate (neighborCount m row col)
          (gridSet m row col (b.rotate d)))).flatten) ∧
    ((2 ≤ R ∨ 2 ≤ C) →
      1 ≤ neighborCount m row col ∧ neighborCount m row col ≤ 4) := by
  obtain ⟨h0r, h0c, rr, hrr, hcc⟩ := gridGet?_eq_some_unpack hcell
  have hrlt := (List.getElem?_eq_some.mp hrr).1
  have hclt := (List.getElem?_eq_some.mp hcc).1
  obtain ⟨mr0, mt, rfl⟩ : ∃ a t, m = a :: t := by
    cases m with
    | nil => simp at hrlt
    | cons a t => exact ⟨a, t, rfl⟩
  have hlen : (mr0 :: mt).length = R := hrect.1
  have hmr0 : mr0.length = C := hrect.2 mr0 (by simp)
  have hrrmem : rr ∈ mr0 :: mt := by
    obtain ⟨hlt2, heq⟩ := List.getElem?_eq_some.mp hrr
    exact heq ▸ List.getElem_mem hlt2
  have hrrC : rr.length = C := hrect.2 rr hrrmem
  have hstep : ∀ d : Nat,
      stepDirs (recurAux 0) row col [] (mr0 :: mt)
        (gridSet (mr0 :: mt) row col (b.rotate d)) =
      some (List.replicate (neighborCount (mr0 :: mt) row col)
        (gridSet (mr0 :: mt) row col (b.rotate d))) := by
    intro d
    unfold stepDirs neighborCount
    simp only [List.headD_cons]
    by_cases h1 : row + 1 < (((mr0 :: mt).length : Nat) : Int) <;>
      by_cases h2 : 0 ≤ row - 1 <;>
      by_cases h3 : col + 1 < ((mr0.length : Nat) : Int) <;>
      by_cases h4 : 0 ≤ col - 1 <;>
      simp only [h1, h2, h3, h4, if_true, if_false, ite_true, ite_false] <;>
      simp [recurAux, List.replicate_succ]
  constructor
  · have hone : recurEnumerateBoards row col [b] (mr0 :: mt) =
        collectSome (fun b1 => collectSome (fun d =>
          stepDirs (recurAux 0) row col
            ([b].filter (fun x => x.name != b1.name)) (mr0 :: mt)
            (gridSet (mr0 :: mt) row col (b1.rotate d))) directions) [b] := by
      unfold recurEnumerateBoards
      show recurAux 1 row col [b] (mr0 :: mt) = _
      simp only [recurAux]
      rw [if_neg (by simp), hcell]
      dsimp only
      rw [if_neg (fun hcon => hcon hblank)]
    rw [hone]
    have htq : [b].filter (fun x => x.name != b.name) = [] := by simp
    simp only [collectSome, directions, htq, hstep]
    simp [List.flatten]
  · intro hRC
    constructor <;>
      (unfold neighborCount; simp only [List.headD_cons]; split_ifs <;> omega)

/-- Witness for C10 on a 2 by 1 grid whose open top cell has exactly one
in-bounds neighbor. -/
theorem C10_last_board_fanout_witness :
    recurEnumerateBoards 0 0 [boardY] [[generateBlankBoard 2], [boardX]] =
      some ((directions.map (fun d =>
        List.replicate (neighborCount [[generateBlankBoard 2], [boardX]] 0 0)
          (gridSet [[generateBlankBoard 2], [boardX]] 0 0
            (boardY.rotate d)))).flatten) ∧
    ((2 ≤ 2 ∨ 2 ≤ 1) →
      1 ≤ neighborCount [[generateBlankBoard 2], [boardX]] 0 0 ∧
      neighborCount [[generateBlankBoard 2], [boardX]] 0 0 ≤ 4) :=
  C10_last_board_fanout boardY [[generateBlankBoard 2], [boardX]] 2 1 0 0
    (generateBlankBoard 2) (by decide) (by decide) (by decide)

/-
Heap model lemmas: the copy-on-branch discipline of lines 217 and 225-227.
-/

/-- HeapExtends is reflexive. -/
theorem heapExtends_refl (st : SearchState) : HeapExtends st st :=
  ⟨le_refl _, fun _ _ => rfl, [], by simp⟩

/-- HeapExtends is transitive. -/
theorem heapExtends_trans {a b c : SearchState}
    (h1 : HeapExtends a b) (h2 : HeapExtends b c) : HeapExtends a c := by
  obtain ⟨hl1, hg1, n1, hr1⟩ := h1
  obtain ⟨hl2, hg2, n2, hr2⟩ := h2
  refine ⟨le_trans hl1 hl2, fun i hi => ?_, n1 ++ n2, ?_⟩
  · rw [hg2 i (lt_of_lt_of_le hi hl1), hg1 i hi]
  · rw [hr2, hr1, List.append_assoc]

/-- A loop whose every body step extends the heap extends the heap. -/
theorem optFoldl_heapExtends {α : Type}
    {f : SearchState → α → Option SearchState}
    (hf : ∀ s a s', f s a = some s' → HeapExtends s s') :
    ∀ (l : List α) (st st' : SearchState),
      optFoldl f l st = some st' → HeapExtends st st' := by
  intro l
  induction l with
  | nil =>
    intro st st' h
    unfold optFoldl at h
    injection h with h
    subst h
    exact heapExtends_refl _
  | cons a rest ih =>
    intro st st' h
    unfold optFoldl at h
    cases hfa : f st a with
    | none => rw [hfa] at h; exact Option.noConfusion h
    | some st1 =>
      rw [hfa] at h
      exact heapExtends_trans (hf st a st1 hfa) (ih st1 st' h)

/-- The four guarded directional recursions extend the heap whenever each
recursive call does. -/
theorem stepDirsH_heapExtends
    {rec : Int → Int → List Board → Nat → SearchState → Option SearchState}
    {row col : Int} {tq : List Board} {mref mref2 : Nat}
    {st2 st' : SearchState}
    (hrec : ∀ r' c' s s', rec r' c' tq mref2 s = some s' → HeapExtends s s')
    (h : stepDirsH rec row col tq mref mref2 st2 = some st') :
    HeapExtends st2 st' := by
  unfold stepDirsH at h
  cases hv1 : (if row + 1 < ((heapRead st2 mref).length : Int)
      then rec (row + 1) col tq mref2 st2 else some st2) with
  | none => rw [hv1] at h; exact Option.noConfusion h
  | some s1 =>
  rw [hv1, Option.some_bind] at h
  have he1 : HeapExtends st2 s1 := by
    by_cases hc : row + 1 < ((heapRead st2 mref).length : Int)
    · rw [if_pos hc] at hv1
      exact hrec _ _ _ _ hv1
    · rw [if_neg hc] at hv1
      injection hv1 with hv1
      subst hv1
      exact heapExtends_refl _
  cases hv2 : (if 0 ≤ row - 1 then rec (row - 1) col tq mref2 s1
      else some s1) with
  | none => rw [hv2] at h; exact Option.noConfusion h
  | some s2 =>
  rw [hv2, Option.some_bind] at h
  have he2 : HeapExtends s1 s2 := by
    by_cases hc : 0 ≤ row - 1
    · rw [if_pos hc] at hv2
      exact hrec _ _ _ _ hv2
    · rw [if_neg hc] at hv2
      injection hv2 with hv2
      subst hv2
      exact heapExtends_refl _
  cases hv3 : (match heapRead s2 mref with
     | [] => none
     | mr0 :: _ =>
       if col + 1 < (mr0.length : Int)
       then rec row (col + 1) tq mref2 s2 else some s2) with
  | none => rw [hv3] at h; exact Option.noConfusion h
  | some s3 =>
  rw [hv3, Option.some_bind] at h
  have he3 : HeapExtends s2 s3 := by
    cases hm : heapRead s2 mref with
    | nil =>
      rw [hm] at hv3
      exact Option.noConfusion hv3
    | cons mr0 mt =>
      rw [hm] at hv3
      dsimp only at hv3
      by_cases hc : col + 1 < (mr0.length : Int)
      · rw [if_pos hc] at hv3
        exact hrec _ _ _ _ hv3
      · rw [if_neg hc] at hv3
        injection hv3 with hv3
        subst hv3
        exact heapExtends_refl _
  cases hv4 : (if 0 ≤ col - 1 then rec row (col - 1) tq mref2 s3
      else some s3) with
  | none => rw [hv4] at h; exact Option.noConfusion h
  | some s4 =>
  rw [hv4, Option.some_bind] at h
  have he4 : HeapExtends s3 s4 := by
    by_cases hc : 0 ≤ col - 1
    · rw [if_pos hc] at hv4
      exact hrec _ _ _ _ hv4
    · rw [if_neg hc] at hv4
      injection hv4 with hv4
      subst hv4
      exact heapExtends_refl _
  injection h with h
  subst h
  exact heapExtends_trans he1 (heapExtends_trans he2
    (heapExtends_trans he3 he4))

/-- Every call of the heap-model recursion extends the heap: it never
touches an existing grid object and only appends results. -/
theorem recurHAux_heapExtends :
    ∀ (fuel : Nat) (row col : Int) (q : List Board) (mref : Nat)
      (st st' : SearchState),
      recurHAux fuel row col q mref st = some st' → HeapExtends st st' := by
  intro fuel
  induction fuel with
  | zero =>
    intro row col q mref st st' h
    simp only [recurHAux] at h
    split at h
    · injection h with h
      subst h
      exact ⟨le_refl _, fun _ _ => rfl, [heapRead st mref], rfl⟩
    · exact Option.noConfusion h
  | succ fuel ih =>
    intro row col q mref st st' h
    simp only [recurHAux] at h
    split at h
    · injection h with h
      subst h
      exact ⟨le_refl _, fun _ _ => rfl, [heapRead st mref], rfl⟩
    · cases hcell : gridGet? (heapRead st mref) row col with
      | none => rw [hcell] at h; exact Option.noConfusion h
      | some cell =>
        rw [hcell] at h
        dsimp only at h
        split at h
        · injection h with h
          subst h
          exact heapExtends_refl _
        · refine optFoldl_heapExtends ?_ _ _ _ h
          intro s a s' hstep
          have hx : HeapExtends s
              ⟨(s.grids ++ [heapRead s mref]).set s.grids.length
                 (gridSet (heapRead s mref) row col (a.1.rotate a.2)),
               s.results⟩ := by
            refine ⟨?_, ?_, [], by simp⟩
            · simp
            · intro i hi
              rw [List.getElem?_set_ne (by omega), List.getElem?_append,
                if_pos hi]
          exact heapExtends_trans hx
            (stepDirsH_heapExtends
              (fun r' c' s1 s1' hzc => ih r' c' _ _ s1 s1' hzc) hstep)

/-- Claim C9: every recursive search call leaves the grid objects it
received unchanged: it only allocates fresh copies (line 225) and writes
through the fresh reference (line 227), so after the call returns every
pre-existing grid object, in particular the caller-owned meta grid, still
dereferences to its old value, and the only other effect is appending
recorded copies to the result list.  Queue lists are never mutated by the
source (temp_queue is a fresh comprehension), which the model renders by
passing queues by value. -/
theorem C9_copy_on_branch (fuel : Nat) (row col : Int) (q : List Board)
    (mref : Nat) (st st' : SearchState)
    (hrun : recurHAux fuel row col q mref st = some st') :
    (∀ i, i < st.grids.length → st'.grids[i]? = st.grids[i]?) ∧
    ∃ new, st'.results = st.results ++ new := by
  obtain ⟨_, h2, h3⟩ := recurHAux_heapExtends fuel row col q mref st st' hrun
  exact ⟨h2, h3⟩

/-- Witness for C9 on the concrete heap state stW: the caller grid object 0
is unchanged by the run and the results are only appended to. -/
theorem C9_copy_on_branch_witness :
    stWout.grids[0]? = stW.grids[0]? ∧
    stWout.results = stW.results ++ List.replicate 4 [[boardY], [boardX]] := by
  have h := C9_copy_on_branch 1 0 0 [boardY] 0 stW stWout (by decide)
  exact ⟨h.1 0 (by decide), by decide⟩
